import Mathlib

/-!
Verification of the contract-ABI resolution and event-decoding engine
(`workers/worker_3_1.py`): Keccak-256 signature hashing, the signature
matcher, the ABI resolver with EIP-1967 proxy detection, the log decoder,
and the batch orchestrator.
-/

set_option maxRecDepth 10000

namespace AiScanner

/-! ## Keccak-256 (the hash used by `Web3.keccak`) -/

/-- Mask of 64 one bits. -/
def mask64 : Nat := 2 ^ 64 - 1

/-- Left-rotate a 64-bit word (represented as a `Nat` below `2^64`). -/
def rotl64 (x n : Nat) : Nat := ((x <<< n) ||| (x >>> (64 - n))) % 2 ^ 64

/-- Read lane `i` of a 25-lane state. -/
def lane (s : List Nat) (i : Nat) : Nat := s.getD i 0

/-- State of the degree-8 LFSR that generates the round-constant bits,
after `t` steps. -/
def lfsrByte : Nat → Nat
  | 0 => 1
  | t + 1 =>
    let r := lfsrByte t
    ((r <<< 1) ^^^ ((r >>> 7) * 0x71)) % 256

/-- Round-constant bit `rc(t)` of the Keccak specification. -/
def rcBit (t : Nat) : Nat := lfsrByte t % 2

/-- The round constant of round `ir`: bit `rc(7*ir + j)` goes to position
`2^j - 1`. -/
def keccakRCAt (ir : Nat) : Nat :=
  (List.range 7).foldl (fun acc j => acc ||| (rcBit (7 * ir + j) <<< (2 ^ j - 1))) 0

/-- Keccak-f[1600] round constants. -/
def keccakRC : List Nat := (List.range 24).map keccakRCAt

/-- Rho rotation offsets in lane order `x + 5*y`, generated by the walk of
the specification: offset `(t+1)(t+2)/2 mod 64` is assigned at `(x, y)`,
starting from `(1, 0)` and stepping `(x, y) := (y, (2x+3y) mod 5)`. -/
def rhoOffsets : List Nat :=
  ((List.range 24).foldl
    (fun st t =>
      let x := st.1
      let y := st.2.1
      let offs := st.2.2
      (y, ((2 * x + 3 * y) % 5, offs.set (x + 5 * y) ((t + 1) * (t + 2) / 2 % 64))))
    (1, 0, List.replicate 25 0)).2.2

/-- Inverse of the pi lane permutation: output lane `i` is sourced from lane
`invPi[i]` (so `B[i] = rot(A[invPi[i]])`). -/
def invPi : List Nat :=
  (List.range 25).map (fun i =>
    let x := i % 5
    let y := i / 5
    -- pi sends (x,y) to (y, 2x+3y); solving gives source (x+3y, x).
    ((x + 3 * y) % 5) + 5 * x)

/-- One Keccak-f round: theta, rho, pi, chi, iota. -/
def keccakRound (s : List Nat) (rc : Nat) : List Nat :=
  let c := (List.range 5).map (fun x =>
    (lane s x) ^^^ (lane s (x + 5)) ^^^ (lane s (x + 10)) ^^^
      (lane s (x + 15)) ^^^ (lane s (x + 20)))
  let d := (List.range 5).map (fun x =>
    (lane c ((x + 4) % 5)) ^^^ rotl64 (lane c ((x + 1) % 5)) 1)
  let s1 := (List.range 25).map (fun i => (lane s i) ^^^ (lane d (i % 5)))
  let b := (List.range 25).map (fun i =>
    let j := lane invPi i
    rotl64 (lane s1 j) (lane rhoOffsets j))
  let s2 := (List.range 25).map (fun i =>
    let x := i % 5
    let y := i / 5
    (lane b i) ^^^ (((lane b ((x + 1) % 5 + 5 * y)) ^^^ mask64) &&& lane b ((x + 2) % 5 + 5 * y)))
  s2.set 0 ((lane s2 0) ^^^ rc)

/-- The full 24-round permutation. -/
def keccakF (s : List Nat) : List Nat := keccakRC.foldl keccakRound s

/-- Keccak multi-rate padding with domain byte `0x01` (the original Keccak
used by Ethereum, not the NIST SHA-3 `0x06` variant). -/
def keccakPad (msg : List Nat) : List Nat :=
  let padTotal := 136 - msg.length % 136
  if padTotal = 1 then msg ++ [0x81]
  else msg ++ (0x01 :: List.replicate (padTotal - 2) 0 ++ [0x80])

/-- Little-endian 64-bit lane assembled from 8 bytes of `l` starting at `off`. -/
def laneOfBytes (l : List Nat) (off : Nat) : Nat :=
  (List.range 8).foldl (fun acc k => acc ||| (l.getD (off + k) 0 <<< (8 * k))) 0

/-- Absorb one 136-byte block (starting at byte offset `off`) into the state. -/
def absorbBlock (s : List Nat) (l : List Nat) (off : Nat) : List Nat :=
  keccakF ((List.range 25).map (fun i =>
    if i < 17 then (lane s i) ^^^ laneOfBytes l (off + 8 * i) else lane s i))

/-- Sponge absorb of a padded message (length a multiple of 136). -/
def keccakAbsorb (padded : List Nat) : List Nat :=
  (List.range (padded.length / 136)).foldl
    (fun st b => absorbBlock st padded (136 * b))
    (List.replicate 25 0)

/-- Keccak-256 digest (32 bytes) of a byte list. -/
def keccak256 (msg : List Nat) : List Nat :=
  let s := keccakAbsorb (keccakPad msg)
  (List.range 32).map (fun i => (lane s (i / 8) >>> (8 * (i % 8))) % 256)

/-- Lowercase hexadecimal digit: `0`..`9` then `a`..`f`. -/
def hexDigit (n : Nat) : Char :=
  Char.ofNat (if n < 10 then 48 + n else 87 + n)

/-- Lowercase hex rendering of a byte list. -/
def bytesToHex (l : List Nat) : String :=
  String.mk (l.foldr (fun b acc => hexDigit (b / 16) :: hexDigit (b % 16) :: acc) [])

/-- UTF-8 bytes of a single code point. -/
def utf8Enc (c : Nat) : List Nat :=
  if c < 0x80 then [c]
  else if c < 0x800 then [0xC0 ||| (c >>> 6), 0x80 ||| (c &&& 0x3F)]
  else if c < 0x10000 then
    [0xE0 ||| (c >>> 12), 0x80 ||| ((c >>> 6) &&& 0x3F), 0x80 ||| (c &&& 0x3F)]
  else
    [0xF0 ||| (c >>> 18), 0x80 ||| ((c >>> 12) &&& 0x3F),
     0x80 ||| ((c >>> 6) &&& 0x3F), 0x80 ||| (c &&& 0x3F)]

/-- UTF-8 encoding of a string as a byte list. -/
def strBytes (s : String) : List Nat := (s.data.map (fun c => utf8Enc c.toNat)).flatten

/-- Model of `Web3.keccak(text=s).hex()`: `0x`-prefixed lowercase hex of the
Keccak-256 digest of the UTF-8 encoding of `s`. -/
def keccakHex (s : String) : String := "0x" ++ bytesToHex (keccak256 (strBytes s))

/-- ASCII lower-casing, modelling Python `str.lower()` on the ASCII strings
(addresses, hex hashes, identifiers) this subsystem manipulates. -/
def asciiLower (s : String) : String :=
  String.mk (s.data.map (fun c => if 'A' ≤ c ∧ c ≤ 'Z' then Char.ofNat (c.toNat + 32) else c))

/-! ## ABI data model

An ABI is a JSON list of loosely-typed dicts. The worker reads
`entry.get("type")`, `entry["name"]`, `entry.get("anonymous", False)` and
`entry.get("inputs", [])`, and each input's `"type"` and `"name"`; missing
optional keys take their Python defaults, which the structure fields encode
directly. -/

structure AbiInput where
  name : String
  type : String
  indexed : Bool
deriving DecidableEq, Repr

structure AbiEntry where
  type : String
  name : String
  inputs : List AbiInput
  anonymous : Bool
deriving DecidableEq, Repr

/-- Canonical event signature text built in `get_event_abi`:
`f"{entry['name']}({','.join([i['type'] for i in inputs])})"`. -/
def signatureText (entry : AbiEntry) : String :=
  entry.name ++ "(" ++ String.intercalate "," (entry.inputs.map AbiInput.type) ++ ")"

/-- Signature hash computed in `get_event_abi`:
`Web3.keccak(text=signature_text).hex()`. -/
def signatureHash (entry : AbiEntry) : String := keccakHex (signatureText entry)

/-! ## Signature Matcher (`worker_3_1.get_event_abi`) -/

/-- Translation of `worker_3_1.get_event_abi`: iterate the ABI in order,
skip entries that are not events or are anonymous, and return the first
entry whose signature hash equals `topic0` case-insensitively. -/
def get_event_abi (abi : List AbiEntry) (topic0 : String) : Option AbiEntry :=
  match abi with
  | [] => none
  | entry :: rest =>
    if entry.type ≠ "event" ∨ entry.anonymous then get_event_abi rest topic0
    else if asciiLower (signatureHash entry) = asciiLower topic0 then some entry
    else get_event_abi rest topic0

/-- Spec-side match predicate, written from the specification text: a
non-anonymous entry of type event whose canonical-signature Keccak hash
compares case-insensitively equal to `topic0`. -/
def specEventMatches (topic0 : String) (entry : AbiEntry) : Bool :=
  entry.type == "event" && !entry.anonymous &&
    (asciiLower (keccakHex (entry.name ++ "(" ++
      String.intercalate "," (entry.inputs.map AbiInput.type) ++ ")")) == asciiLower topic0)

/-- Spec-side matcher: the first ABI entry in declaration order satisfying
`specEventMatches`, or `none` when no entry matches. -/
def findEventAbiSpec (abi : List AbiEntry) (topic0 : String) : Option AbiEntry :=
  abi.find? (specEventMatches topic0)

/-! ## Raw logs and decoded records -/

/-- A row of the Raw Log Source table, as consumed by `decode_log` and the
orchestrator's per-contract query. -/
structure RawLog where
  address : String
  block_number : Nat
  transaction_hash : String
  log_index : Nat
  topics : List String
  data : String
deriving DecidableEq, Repr

/-- A typed argument value as produced by `web3` event decoding, before the
worker stringifies it with `str(...)`. -/
inductive DecVal
  | s (v : String)
  | n (v : Nat)
  | b (v : Bool)
deriving DecidableEq, Repr

/-- Python `str(...)` on a decoded value. -/
def vstr : DecVal → String
  | DecVal.s v => v
  | DecVal.n v => Nat.repr v
  | DecVal.b v => if v then "True" else "False"

/-- A value stored in an output-record column: the worker's records mix
strings (event name, stringified arguments, hashes, addresses) and integers
(block number, log index). -/
inductive RVal
  | str (v : String)
  | int (v : Nat)
deriving DecidableEq, Repr

/-- A decoded output record: a Python dict in insertion order with unique
keys, modelled as an association list. -/
abbrev Record := List (String × RVal)

/-- Python `d[k] = v` on a dict: replace the value in place if the key is
present, otherwise append the binding. -/
def dictSet {α : Type} (d : List (String × α)) (k : String) (v : α) : List (String × α) :=
  if d.any (fun p => decide (p.1 = k)) then d.map (fun p => if p.1 = k then (k, v) else p)
  else d ++ [(k, v)]

/-- A Python dict literal built from bindings in order: later bindings for
the same key override earlier ones but keep the first insertion position. -/
def pyDict {α : Type} (l : List (String × α)) : List (String × α) :=
  l.foldl (fun d p => dictSet d p.1 p.2) []

/-- The external `web3` decoder (`get_event_data` plus the `formatted_log`
conversions around it): from a matched ABI entry and a raw log it either
produces the decoded argument bindings or raises (modelled as `none`). -/
abbrev EventDataOracle := AbiEntry → RawLog → Option (List (String × DecVal))

/-- Translation of `worker_3_1.decode_log`: drop logs with no topics, match
`topics[0]` against the ABI, run the binary decoder, stringify every decoded
argument, and assemble the output dict: `event_name`, then the argument
bindings, then the log-identity fields. -/
def decode_log (gev : EventDataOracle) (log : RawLog) (abi : List AbiEntry) : Option Record :=
  match log.topics with
  | [] => none
  | topic0 :: _ =>
    match get_event_abi abi topic0 with
    | none => none
    | some event_abi =>
      match gev event_abi log with
      | none => none
      | some args =>
        some (pyDict ([("event_name", RVal.str event_abi.name)]
          ++ args.map (fun kv => (kv.1, RVal.str (vstr kv.2)))
          ++ [("block_number", RVal.int log.block_number),
              ("transaction_hash", RVal.str log.transaction_hash),
              ("log_index", RVal.int log.log_index),
              ("contract_address", RVal.str (asciiLower log.address))]))

/-! ## ABI Resolver (`worker_3_1.get_final_abi`) -/

/-- One input of the manually mapped ABI. -/
def mkInput (n t : String) (ix : Bool) : AbiInput := ⟨n, t, ix⟩

/-- The ABI stored in the module-level `ABI_MAPPING` for
`0xde4ee8057785a7e8e800db58f9784845a5c2cbd6`. -/
def mappedAbi : List AbiEntry :=
  [⟨"constructor", "", [], false⟩,
   ⟨"event", "Approval",
     [mkInput "owner" "address" true, mkInput "spender" "address" true,
      mkInput "value" "uint256" false], false⟩,
   ⟨"event", "OwnershipTransferred",
     [mkInput "previousOwner" "address" true, mkInput "newOwner" "address" true], false⟩,
   ⟨"event", "Transfer",
     [mkInput "from" "address" true, mkInput "to" "address" true,
      mkInput "value" "uint256" false], false⟩]

/-- The manual ABI override table (`ABI_MAPPING` in the source), keyed by
lower-cased address. -/
def ABI_MAPPING (address : String) : Option (List AbiEntry) :=
  if address = "0xde4ee8057785a7e8e800db58f9784845a5c2cbd6" then some mappedAbi else none

/-- An external network call made by the resolver: an `eth_getStorageAt`
RPC read or an explorer `getabi` fetch, tagged with chain and address. -/
inductive NetCall
  | storage (chain address : String)
  | fetch (chain address : String)
deriving DecidableEq, Repr

/-- Fixed-width 40-digit lowercase hex of `n` (the low 20 bytes of a storage
word, as sliced by `storage_content.hex()[-40:]`). -/
def natToHex40 (n : Nat) : String :=
  String.mk ((List.range 40).map (fun i => hexDigit (n / 16 ^ (39 - i) % 16)))

/-- The implementation-address string the resolver builds from a storage
word: `"0x" + storage_content.hex()[-40:]`. -/
def implHexOf (w : Nat) : String := "0x" ++ natToHex40 (w % 2 ^ 160)

/-- A row of the contract-registry query (`adresse_contrat`,
`chaine_contrat`, `nom`, `symbole`). -/
structure Contract where
  adresse_contrat : String
  chaine_contrat : String
  nom : String
  symbole : String
deriving DecidableEq, Repr

/-- Outcome classes of the per-contract raw-log warehouse query: the source
table does not exist (the run aborts with `return False`), or any other
query exception (logged, contract skipped). -/
inductive QueryErr
  | missingSourceTable
  | transient
deriving DecidableEq, Repr

/-- External world seen by the resolver and orchestrator. Each failure mode
of an external call (raised exception, unsupported chain, missing key,
non-`"1"` status) is modelled by the oracle returning `none`. -/
structure Env where
  contracts : List Contract
  batch_size : Nat
  configOk : Bool
  registryFails : Bool
  rawLogsTable : List RawLog
  provider : String → Bool
  storageAt : String → String → Option Nat
  fetchAbi : String → String → Option (List AbiEntry)
  get_event_data : EventDataOracle
  queryLogsErr : String → Option QueryErr
  uploadFails : Bool

/-- Translation of `worker_3_1.get_final_abi`, returning the resolver's
result together with the list of external calls it made. The manual mapping
is consulted first; then the EIP-1967 implementation slot is read and, when
its low 20 bytes are non-zero, the implementation's ABI is fetched; any
failure falls through to an explorer fetch for the original address. -/
def get_final_abi (env : Env) (address chain : String) :
    Option (List AbiEntry) × List NetCall :=
  match ABI_MAPPING (asciiLower address) with
  | some abi => (some abi, [])
  | none =>
    match env.storageAt chain address with
    | none =>
      (env.fetchAbi chain address, [NetCall.storage chain address, NetCall.fetch chain address])
    | some w =>
      if w % 2 ^ 160 ≠ 0 then
        let implementation_address := implHexOf w
        match env.fetchAbi chain implementation_address with
        | some abi =>
          if abi ≠ [] then
            (some abi,
             [NetCall.storage chain address, NetCall.fetch chain implementation_address])
          else
            (env.fetchAbi chain address,
             [NetCall.storage chain address, NetCall.fetch chain implementation_address,
              NetCall.fetch chain address])
        | none =>
          (env.fetchAbi chain address,
           [NetCall.storage chain address, NetCall.fetch chain implementation_address,
            NetCall.fetch chain address])
      else
        (env.fetchAbi chain address, [NetCall.storage chain address, NetCall.fetch chain address])

/-! ## Batch Orchestrator (`worker_3_1.run_label_events_worker`) -/

/-- The chains configured in `NODE_RPCS`; `web3_providers` only ever holds
providers for these keys. -/
def NODE_RPCS_chains : List String := ["ethereum", "binance-smart-chain", "polygon-pos"]

/-- The SQL join condition of the per-contract anti-join:
`lr.transaction_hash = le.transaction_hash AND lr.log_index = le.log_index`,
where the sink row's columns come from the uploaded record. -/
def rowKeyMatches (lr : RawLog) (row : Record) : Bool :=
  decide (row.lookup "transaction_hash" = some (RVal.str lr.transaction_hash)) &&
    decide (row.lookup "log_index" = some (RVal.int lr.log_index))

/-- The WHERE clause of the raw-log query: logs at this (lower-cased)
address with no matching `(transaction_hash, log_index)` row in the sink. -/
def pendingLogs (table : List RawLog) (sink : List Record) (address : String) : List RawLog :=
  table.filter (fun lr =>
    decide (asciiLower lr.address = address) && !(sink.any (rowKeyMatches lr)))

/-- Stable insertion into a list sorted by ascending block number. -/
def insertByBlock (x : RawLog) : List RawLog → List RawLog
  | [] => [x]
  | y :: ys => if x.block_number ≤ y.block_number then x :: y :: ys else y :: insertByBlock x ys

/-- Deterministic model of the query's `ORDER BY lr.block_number` (a stable
sort by ascending block number). -/
def orderByBlock : List RawLog → List RawLog
  | [] => []
  | x :: xs => insertByBlock x (orderByBlock xs)

/-- The full per-contract raw-log query: anti-join, `ORDER BY block_number`,
`LIMIT 2000`. -/
def fetchPendingLogs (table : List RawLog) (sink : List Record) (address : String) :
    List RawLog :=
  (orderByBlock (pendingLogs table sink address)).take 2000

/-- The per-record mutation `record.update({'token_name': nom,
'token_symbol': symbole})` applied before accumulation. -/
def withTokens (record : Record) (c : Contract) : Record :=
  dictSet (dictSet record "token_name" (RVal.str c.nom)) "token_symbol" (RVal.str c.symbole)

/-- Body of the per-log loop: a successful decode appends the record (with
token columns) and bumps the success counter; a failed decode bumps the
failure counter. The accumulator is (records, successes, failures). -/
def logStep (gev : EventDataOracle) (abi : List AbiEntry) (c : Contract)
    (acc : List Record × Nat × Nat) (log : RawLog) : List Record × Nat × Nat :=
  match decode_log gev log abi with
  | some record => (acc.1 ++ [withTokens record c], acc.2.1 + 1, acc.2.2)
  | none => (acc.1, acc.2.1, acc.2.2 + 1)

/-- What processing one registry contract contributes to the run: the cache
after the contract, the appended records, counter increments, the external
calls made, and whether the run must abort (missing raw-log source table). -/
structure ContractOutcome where
  abi_cache : List (String × List AbiEntry)
  new_records : List Record
  succ : Nat
  fail : Nat
  new_calls : List NetCall
  abort : Bool

/-- Python truthiness of `abi_cache.get(address)` / a resolver result: a
present, non-empty ABI. -/
def truthyAbi : Option (List AbiEntry) → Option (List AbiEntry)
  | some l => if l.isEmpty then none else some l
  | none => none

/-- The query-and-decode phase of one contract, given the resolved ABI:
run the anti-join query (or fail), then decode each returned log. -/
def decodePhase (env : Env) (sink : List Record)
    (cache : List (String × List AbiEntry)) (c : Contract) (address : String)
    (abi : List AbiEntry) (calls : List NetCall) : ContractOutcome :=
  match env.queryLogsErr address with
  | some QueryErr.missingSourceTable => ⟨cache, [], 0, 0, calls, true⟩
  | some QueryErr.transient => ⟨cache, [], 0, 0, calls, false⟩
  | none =>
    let logs := fetchPendingLogs env.rawLogsTable sink address
    let res := logs.foldl (logStep env.get_event_data abi c) ([], 0, 0)
    ⟨cache, res.1, res.2.1, res.2.2, calls, false⟩

/-- Translation of one iteration of the orchestrator's contract loop: check
the chain has a connected provider, consult the cache, resolve the ABI on a
miss (caching only truthy results), then query and decode. -/
def processContract (env : Env) (sink : List Record)
    (cache : List (String × List AbiEntry)) (c : Contract) : ContractOutcome :=
  let address := asciiLower c.adresse_contrat
  let chain := c.chaine_contrat
  if !(NODE_RPCS_chains.contains chain && env.provider chain) then
    ⟨cache, [], 0, 0, [], false⟩
  else
    match truthyAbi (cache.lookup address) with
    | some abi => decodePhase env sink cache c address abi []
    | none =>
      let r := get_final_abi env address chain
      match truthyAbi r.1 with
      | none => ⟨cache, [], 0, 0, r.2, false⟩
      | some abi => decodePhase env sink (dictSet cache address abi) c address abi r.2

/-- Running orchestrator state: the module-level `abi_cache`, the
accumulated records, the two counters, and the external-call trace. -/
structure RunState where
  abi_cache : List (String × List AbiEntry)
  all_decoded_records : List Record
  success_count : Nat
  failure_count : Nat
  calls : List NetCall

/-- The contract loop: fold `processContract` over the batch, stopping with
an abort flag when the raw-log source table is missing (`return False`). -/
def runContracts (env : Env) (sink : List Record) :
    List Contract → RunState → RunState × Bool
  | [], st => (st, false)
  | c :: cs, st =>
    let o := processContract env sink st.abi_cache c
    let st1 : RunState :=
      ⟨o.abi_cache, st.all_decoded_records ++ o.new_records,
       st.success_count + o.succ, st.failure_count + o.fail, st.calls ++ o.new_calls⟩
    if o.abort then (st1, true) else runContracts env sink cs st1

/-- Observable outcome of one orchestrator invocation: the boolean the
Python function returns, the sink contents afterwards, the two counters,
and the external-call trace. -/
structure RunResult where
  ok : Bool
  sink : List Record
  success_count : Nat
  failure_count : Nat
  calls : List NetCall

/-- Translation of `worker_3_1.run_label_events_worker` against a sink in
state `sink`: configuration and provider checks, registry read capped at
`BATCH_SIZE`, the contract loop, and a single `WRITE_APPEND` flush of all
accumulated records. -/
def run_label_events_worker (env : Env) (sink : List Record) : RunResult :=
  if !env.configOk then ⟨false, sink, 0, 0, []⟩
  else if !(NODE_RPCS_chains.any env.provider) then ⟨false, sink, 0, 0, []⟩
  else if env.registryFails then ⟨false, sink, 0, 0, []⟩
  else
    let contracts_to_process := env.contracts.take env.batch_size
    if contracts_to_process.isEmpty then ⟨true, sink, 0, 0, []⟩
    else
      let r := runContracts env sink contracts_to_process ⟨[], [], 0, 0, []⟩
      let st := r.1
      if r.2 then ⟨false, sink, st.success_count, st.failure_count, st.calls⟩
      else if st.all_decoded_records.isEmpty then
        ⟨true, sink, st.success_count, st.failure_count, st.calls⟩
      else if env.uploadFails then
        ⟨false, sink, st.success_count, st.failure_count, st.calls⟩
      else
        ⟨true, sink ++ st.all_decoded_records, st.success_count, st.failure_count, st.calls⟩

/-- Verification-side view of the contract loop: the records appended by
processing the given contracts starting from the given cache (truncated at
an aborting contract), with the sink fixed for the whole loop as in the
source (the one flush happens after the loop). -/
def runContractsDelta (env : Env) (sink : List Record) :
    List Contract → List (String × List AbiEntry) → List Record
  | [], _ => []
  | c :: cs, cache =>
    let o := processContract env sink cache c
    if o.abort then o.new_records
    else o.new_records ++ runContractsDelta env sink cs o.abi_cache

/-! ## Concrete instances used by witnesses and counterexamples -/

/-- The canonical ERC-20 Transfer event definition (as present, e.g., in the
manual `ABI_MAPPING`). -/
def transferEntry : AbiEntry :=
  ⟨"event", "Transfer",
   [mkInput "from" "address" true, mkInput "to" "address" true,
    mkInput "value" "uint256" false], false⟩

/-- The well-known ERC-20 Transfer topic hash constant. -/
def transferTopic : String :=
  "0xddf252ad1be2c89b69c2b068fc378daa952ba7f163c4a11628f55a4df523b3ef"

/-- A minimal ABI used by resolver witnesses. -/
def upgradedAbi : List AbiEntry := [⟨"event", "Upgraded", [], false⟩]

/-- Witness environment for proxy resolution: the implementation slot holds
`0xabc` and the explorer knows the ABI of that implementation address only. -/
def c2Env : Env :=
  ⟨[], 0, true, false, [], fun _ => false, fun _ _ => some 0xabc,
   fun _ a => if a = implHexOf 0xabc then some upgradedAbi else none,
   fun _ _ => none, fun _ => none, false⟩

/-- Witness environment for resolver fallback: every storage read raises and
the explorer returns nothing. -/
def c10Env : Env :=
  ⟨[], 0, true, false, [], fun _ => false, fun _ _ => none, fun _ _ => none,
   fun _ _ => none, fun _ => none, false⟩

/-- A raw log with no topics. -/
def c8Log : RawLog := ⟨"0xa", 0, "t", 0, [], ""⟩

/-- A raw log carrying the ERC-20 Transfer topic. -/
def c9Log : RawLog := ⟨"0xA", 7, "t", 3, [transferTopic], ""⟩

/-- A decoder oracle whose event declares an argument named `event_name`
(legal in an ABI), colliding with the record's event-name column. -/
def c5Gev : EventDataOracle := fun _ _ => some [("event_name", DecVal.s "boom")]

/-- A raw log carrying the Transfer topic, used by the C5 counterexample. -/
def c5Log : RawLog := ⟨"0xb", 1, "t5", 0, [transferTopic], ""⟩

/-- A decoder oracle producing one well-behaved argument. -/
def c5wGev : EventDataOracle := fun _ _ => some [("value", DecVal.n 5)]

/-- Two registry rows for the same unresolvable address; the DISTINCT over
`(adresse, chaine, nom, symbole)` keeps both because the names differ. -/
def c6Contract1 : Contract := ⟨"0xb", "ethereum", "TokenA", "TKA"⟩

/-- Second registry row for the same address as `c6Contract1`. -/
def c6Contract2 : Contract := ⟨"0xb", "ethereum", "TokenB", "TKB"⟩

/-- Environment where address `0xb` appears twice in the registry and never
resolves: storage reads raise and the explorer has no ABI. -/
def c6Env : Env :=
  ⟨[c6Contract1, c6Contract2], 5, true, false, [],
   fun c => decide (c = "ethereum"), fun _ _ => none, fun _ _ => none,
   fun _ _ => none, fun _ => none, false⟩

/-- Environment with an empty registry (run completes with zero counters). -/
def c7EnvA : Env :=
  ⟨[], 5, true, false, [], fun c => decide (c = "ethereum"), fun _ _ => none,
   fun _ _ => none, fun _ _ => none, fun _ => none, false⟩

/-- A registry row whose one raw log has no topics. -/
def c7Contract : Contract := ⟨"0xc", "ethereum", "Tok", "TK"⟩

/-- A raw log with no topics at address `0xc`. -/
def c7Log : RawLog := ⟨"0xc", 1, "t7", 0, [], ""⟩

/-- Environment whose single contract resolves but whose only log fails to
decode (run completes with one failure). -/
def c7EnvB : Env :=
  ⟨[c7Contract], 5, true, false, [c7Log], fun c => decide (c = "ethereum"),
   fun _ _ => none, fun _ a => if a = "0xc" then some upgradedAbi else none,
   fun _ _ => none, fun _ => none, false⟩

/-- A decoder oracle that decodes every matched log with no arguments. -/
def c1Gev : EventDataOracle := fun _ _ => some []

/-- Raw log number `i` of the idempotence counterexample: one transaction
emitting many Transfer logs at address `0xa`. -/
def c1Log (i : Nat) : RawLog := ⟨"0xa", 0, "t", i, [transferTopic], ""⟩

/-- 2001 decodable raw logs — one more than the query's `LIMIT 2000`. -/
def c1Logs : List RawLog := (List.range 2001).map c1Log

/-- The single registry contract of the idempotence counterexample. -/
def c1Contract : Contract := ⟨"0xa", "ethereum", "Tok", "TK"⟩

/-- Environment for the idempotence counterexample: 2001 pending decodable
logs for one resolvable contract. -/
def c1Env : Env :=
  ⟨[c1Contract], 5, true, false, c1Logs, fun c => decide (c = "ethereum"),
   fun _ _ => none, fun _ a => if a = "0xa" then some [transferEntry] else none,
   c1Gev, fun _ => none, false⟩

/-- The sink record produced for `c1Log i`. -/
def c1Rec (i : Nat) : Record :=
  [("event_name", RVal.str "Transfer"), ("block_number", RVal.int 0),
   ("transaction_hash", RVal.str "t"), ("log_index", RVal.int i),
   ("contract_address", RVal.str "0xa"), ("token_name", RVal.str "Tok"),
   ("token_symbol", RVal.str "TK")]

/-- Spec-side helper: the last value bound to key `k` in a binding list
(what a Python dict built from those bindings stores at `k`). -/
def lastVal {α : Type} : List (String × α) → String → Option α
  | [], _ => none
  | p :: rest, k =>
    match lastVal rest k with
    | some v => some v
    | none => if p.1 = k then some p.2 else none

/-! ## Dict lemmas: Python dict semantics of `dictSet`/`pyDict` -/

theorem lookup_append {α : Type} (k : String) :
    ∀ d₁ d₂ : List (String × α),
      (d₁ ++ d₂).lookup k =
        match d₁.lookup k with
        | some v => some v
        | none => d₂.lookup k := by
  intro d₁ d₂
  induction d₁ with
  | nil => simp
  | cons p rest ih =>
    obtain ⟨a, b⟩ := p
    by_cases ha : k = a
    · simp [List.cons_append, List.lookup_cons, ha]
    · simp [List.cons_append, List.lookup_cons, beq_false_of_ne ha, ih]

theorem lookup_map_self {α : Type} (k : String) (v : α) :
    ∀ d : List (String × α),
      (d.map (fun p => if p.1 = k then (k, v) else p)).lookup k =
        if d.any (fun p => decide (p.1 = k)) then some v else none := by
  intro d
  induction d with
  | nil => simp
  | cons p rest ih =>
    obtain ⟨a, b⟩ := p
    by_cases ha : a = k
    · subst ha
      simp [List.lookup_cons]
    · simp only [List.map_cons, if_neg ha, List.any_cons]
      rw [List.lookup_cons]
      rw [show (k == a) = false from beq_false_of_ne (Ne.symm ha)]
      simp only [show (decide (a = k)) = false from by simp [ha], Bool.false_or]
      exact ih

theorem lookup_map_ne {α : Type} (k k' : String) (v : α) (hne : k' ≠ k) :
    ∀ d : List (String × α),
      (d.map (fun p => if p.1 = k then (k, v) else p)).lookup k' = d.lookup k' := by
  intro d
  induction d with
  | nil => simp
  | cons p rest ih =>
    obtain ⟨a, b⟩ := p
    by_cases ha : a = k
    · subst ha
      have hhead : (if a = a then (a, v) else (a, b)) = (a, v) := if_pos rfl
      rw [List.map_cons, hhead, List.lookup_cons, List.lookup_cons]
      rw [show (k' == a) = false from beq_false_of_ne hne]
      exact ih
    · by_cases hk' : k' = a
      · simp only [List.map_cons, if_neg ha]
        rw [List.lookup_cons, List.lookup_cons]
        rw [show (k' == a) = true from by simp [hk']]
      · simp only [List.map_cons, if_neg ha]
        rw [List.lookup_cons, List.lookup_cons]
        rw [show (k' == a) = false from beq_false_of_ne hk']
        exact ih

theorem lookup_none_of_any_false {α : Type} (k : String) :
    ∀ d : List (String × α),
      (d.any (fun p => decide (p.1 = k))) = false → d.lookup k = none := by
  intro d
  induction d with
  | nil => simp
  | cons p rest ih =>
    obtain ⟨a, b⟩ := p
    intro h
    simp only [List.any_cons, Bool.or_eq_false_iff, decide_eq_false_iff_not] at h
    rw [List.lookup_cons]
    rw [show (k == a) = false from beq_false_of_ne (fun hk => h.1 hk.symm)]
    exact ih h.2

theorem lookup_dictSet_self {α : Type} (k : String) (v : α)
    (d : List (String × α)) : (dictSet d k v).lookup k = some v := by
  unfold dictSet
  by_cases hany : (d.any (fun p => decide (p.1 = k))) = true
  · rw [if_pos hany, lookup_map_self, if_pos hany]
  · rw [if_neg hany, lookup_append,
      lookup_none_of_any_false k d (by rwa [Bool.not_eq_true] at hany)]
    simp [List.lookup_cons]

theorem lookup_dictSet_ne {α : Type} (k k' : String) (v : α) (hne : k' ≠ k)
    (d : List (String × α)) : (dictSet d k v).lookup k' = d.lookup k' := by
  unfold dictSet
  by_cases hany : (d.any (fun p => decide (p.1 = k))) = true
  · rw [if_pos hany, lookup_map_ne k k' v hne]
  · rw [if_neg hany, lookup_append]
    have : List.lookup k' [(k, v)] = none := by
      rw [List.lookup_cons]
      rw [show (k' == k) = false from beq_false_of_ne hne]
      rfl
    rw [this]
    cases h : d.lookup k' <;> rfl

theorem lookup_foldl_dictSet {α : Type} (k : String) :
    ∀ (l : List (String × α)) (d : List (String × α)),
      (l.foldl (fun d p => dictSet d p.1 p.2) d).lookup k =
        match lastVal l k with
        | some v => some v
        | none => d.lookup k := by
  intro l
  induction l with
  | nil => intro d; simp [lastVal]
  | cons p rest ih =>
    intro d
    rw [List.foldl_cons, ih (dictSet d p.1 p.2)]
    by_cases hp : p.1 = k
    · cases hv : lastVal rest k with
      | some v => simp [lastVal, hv]
      | none => simp [lastVal, hv, hp, hp ▸ lookup_dictSet_self p.1 p.2 d]
    · cases hv : lastVal rest k with
      | some v => simp [lastVal, hv]
      | none => simp [lastVal, hv, hp, lookup_dictSet_ne p.1 k p.2 (Ne.symm hp) d]

theorem lookup_pyDict {α : Type} (l : List (String × α)) (k : String) :
    (pyDict l).lookup k = lastVal l k := by
  rw [pyDict, lookup_foldl_dictSet]
  cases hv : lastVal l k <;> simp [List.lookup]

theorem lastVal_none_of_not_mem_keys {α : Type} (k : String) :
    ∀ l : List (String × α), k ∉ l.map Prod.fst → lastVal l k = none := by
  intro l
  induction l with
  | nil => intro _; rfl
  | cons p rest ih =>
    intro h
    simp only [List.map_cons, List.mem_cons, not_or] at h
    simp only [lastVal, ih h.2]
    rw [if_neg (fun hk => h.1 hk.symm)]

theorem lastVal_append {α : Type} (k : String) :
    ∀ l₁ l₂ : List (String × α),
      lastVal (l₁ ++ l₂) k =
        match lastVal l₂ k with
        | some v => some v
        | none => lastVal l₁ k := by
  intro l₁ l₂
  induction l₁ with
  | nil => cases hv : lastVal l₂ k <;> simp [lastVal, hv]
  | cons p rest ih =>
    rw [List.cons_append]
    simp only [lastVal]
    rw [ih]
    cases hv : lastVal l₂ k <;> rfl

theorem lastVal_append_right {α : Type} (k : String) (l₁ l₂ : List (String × α))
    (v : α) (h : lastVal l₂ k = some v) : lastVal (l₁ ++ l₂) k = some v := by
  rw [lastVal_append, h]

theorem lastVal_append_left {α : Type} (k : String) (l₁ l₂ : List (String × α))
    (h : lastVal l₂ k = none) : lastVal (l₁ ++ l₂) k = lastVal l₁ k := by
  rw [lastVal_append, h]

theorem lastVal_map_nodup :
    ∀ args : List (String × DecVal), (args.map Prod.fst).Nodup →
      ∀ p ∈ args,
        lastVal (args.map (fun kv => (kv.1, RVal.str (vstr kv.2)))) p.1 =
          some (RVal.str (vstr p.2)) := by
  intro args
  induction args with
  | nil => intro _ p hp; cases hp
  | cons q rest ih =>
    intro hnd p hp
    rw [List.map_cons, List.nodup_cons] at hnd
    cases hp with
    | head =>
      have hkeys : (rest.map (fun kv => (kv.1, RVal.str (vstr kv.2)))).map Prod.fst
          = rest.map Prod.fst := by
        simp [List.map_map]
      have hnone :
          lastVal (rest.map (fun kv => (kv.1, RVal.str (vstr kv.2)))) q.1 = none :=
        lastVal_none_of_not_mem_keys q.1 _ (by rw [hkeys]; exact hnd.1)
      simp [List.map_cons, lastVal, hnone]
    | tail _ hp' =>
      have hsome := ih hnd.2 p hp'
      simp only [List.map_cons, lastVal, hsome]

/-! ## Decoder record structure -/

theorem decode_log_eq_record (gev : EventDataOracle) (log : RawLog)
    (abi : List AbiEntry) (topic0 : String) (rest : List String) (e : AbiEntry)
    (args : List (String × DecVal))
    (ht : log.topics = topic0 :: rest)
    (he : get_event_abi abi topic0 = some e)
    (hg : gev e log = some args) :
    decode_log gev log abi =
      some (pyDict ([("event_name", RVal.str e.name)]
        ++ args.map (fun kv => (kv.1, RVal.str (vstr kv.2)))
        ++ [("block_number", RVal.int log.block_number),
            ("transaction_hash", RVal.str log.transaction_hash),
            ("log_index", RVal.int log.log_index),
            ("contract_address", RVal.str (asciiLower log.address))])) := by
  simp only [decode_log, ht, he, hg]

theorem decode_log_some_shape (gev : EventDataOracle) (log : RawLog)
    (abi : List AbiEntry) (r : Record) (h : decode_log gev log abi = some r) :
    ∃ topic0 rest e args, log.topics = topic0 :: rest ∧
      get_event_abi abi topic0 = some e ∧ gev e log = some args ∧
      r = pyDict ([("event_name", RVal.str e.name)]
        ++ args.map (fun kv => (kv.1, RVal.str (vstr kv.2)))
        ++ [("block_number", RVal.int log.block_number),
            ("transaction_hash", RVal.str log.transaction_hash),
            ("log_index", RVal.int log.log_index),
            ("contract_address", RVal.str (asciiLower log.address))]) := by
  unfold decode_log at h
  cases ht : log.topics with
  | nil =>
    simp only [ht] at h
    exact Option.noConfusion h
  | cons topic0 rest =>
    simp only [ht] at h
    cases he : get_event_abi abi topic0 with
    | none =>
      simp only [he] at h
      exact Option.noConfusion h
    | some e =>
      simp only [he] at h
      cases hg : gev e log with
      | none =>
        simp only [hg] at h
        exact Option.noConfusion h
      | some args =>
        simp only [hg] at h
        injection h with h'
        exact ⟨topic0, rest, e, args, rfl, he, hg, h'.symm⟩

theorem record_identity_lookups (front : Record) (log : RawLog) :
    (pyDict (front ++ [("block_number", RVal.int log.block_number),
        ("transaction_hash", RVal.str log.transaction_hash),
        ("log_index", RVal.int log.log_index),
        ("contract_address", RVal.str (asciiLower log.address))])).lookup "block_number"
        = some (RVal.int log.block_number) ∧
    (pyDict (front ++ [("block_number", RVal.int log.block_number),
        ("transaction_hash", RVal.str log.transaction_hash),
        ("log_index", RVal.int log.log_index),
        ("contract_address", RVal.str (asciiLower log.address))])).lookup "transaction_hash"
        = some (RVal.str log.transaction_hash) ∧
    (pyDict (front ++ [("block_number", RVal.int log.block_number),
        ("transaction_hash", RVal.str log.transaction_hash),
        ("log_index", RVal.int log.log_index),
        ("contract_address", RVal.str (asciiLower log.address))])).lookup "log_index"
        = some (RVal.int log.log_index) ∧
    (pyDict (front ++ [("block_number", RVal.int log.block_number),
        ("transaction_hash", RVal.str log.transaction_hash),
        ("log_index", RVal.int log.log_index),
        ("contract_address", RVal.str (asciiLower log.address))])).lookup "contract_address"
        = some (RVal.str (asciiLower log.address)) := by
  refine ⟨?_, ?_, ?_, ?_⟩ <;> (rw [lookup_pyDict, lastVal_append]; rfl)

/-! ## Claim theorems -/

/-- C3: for every ABI and every topic0, `get_event_abi` considers only
non-anonymous entries of type event, compares the Keccak hash of the
canonical signature built from the entry's ordered input types
case-insensitively against topic0, and returns the first entry in
declaration order whose hash matches, or `none` when no entry matches —
i.e. it coincides with the spec-side first-match search. -/
theorem c3_signature_matcher (abi : List AbiEntry) (topic0 : String) :
    get_event_abi abi topic0 = findEventAbiSpec abi topic0 := by
  induction abi with
  | nil => rfl
  | cons entry rest ih =>
    rw [show findEventAbiSpec rest topic0 = List.find? (specEventMatches topic0) rest
      from rfl] at ih
    cases hM : specEventMatches topic0 entry with
    | true =>
      have hM' := hM
      simp only [specEventMatches, Bool.and_eq_true, beq_iff_eq,
        Bool.not_eq_true'] at hM'
      obtain ⟨⟨ht, ha⟩, hh⟩ := hM'
      rw [findEventAbiSpec, List.find?_cons_of_pos _ hM]
      unfold get_event_abi
      rw [if_neg (by simp [ht, ha]), if_pos (show asciiLower (signatureHash entry)
        = asciiLower topic0 from hh)]
    | false =>
      rw [findEventAbiSpec, List.find?_cons_of_neg _ (by simp [hM])]
      have hns : ¬(entry.type = "event" ∧ entry.anonymous = false ∧
          asciiLower (signatureHash entry) = asciiLower topic0) := by
        rintro ⟨ht, ha, hh⟩
        rw [show specEventMatches topic0 entry = true from by
          simp [specEventMatches, signatureHash, signatureText] at hh ⊢
          exact ⟨⟨ht, ha⟩, hh⟩] at hM
        exact Bool.noConfusion hM
      unfold get_event_abi
      by_cases hc : entry.type ≠ "event" ∨ entry.anonymous = true
      · rw [if_pos hc]
        exact ih
      · push_neg at hc
        obtain ⟨ht, ha⟩ := hc
        rw [if_neg (by simp [ht, ha])]
        rw [if_neg (fun hh => hns ⟨ht, by simpa using ha, hh⟩)]
        exact ih

/-- C4: the topic hash the signature matcher computes for the canonical
ERC-20 signature `Transfer(address,address,uint256)` equals the well-known
constant `0xddf252ad1be2c89b69c2b068fc378daa952ba7f163c4a11628f55a4df523b3ef`. -/
theorem c4_transfer_topic_constant :
    signatureText transferEntry = "Transfer(address,address,uint256)" ∧
      signatureHash transferEntry = transferTopic := by
  constructor
  · rfl
  · decide

/-- C2: when the EIP-1967 storage word of an address has non-zero low 20
bytes, and the address has no manual-override entry, and the explorer fetch
for the implementation succeeds (non-empty), `get_final_abi` returns the
ABI fetched for the implementation address — its call trace contains no
fetch for the original address. -/
theorem c2_proxy_resolution (env : Env) (address chain : String) (w : Nat)
    (abi : List AbiEntry)
    (hmap : ABI_MAPPING (asciiLower address) = none)
    (hst : env.storageAt chain address = some w)
    (hw : w % 2 ^ 160 ≠ 0)
    (hfetch : env.fetchAbi chain (implHexOf w) = some abi)
    (hne : abi ≠ []) :
    get_final_abi env address chain =
      (some abi, [NetCall.storage chain address, NetCall.fetch chain (implHexOf w)]) := by
  unfold get_final_abi
  simp only [hmap, hst, hfetch, if_pos hw, if_pos hne]

/-- Witness for C2 at a concrete environment. -/
theorem c2_proxy_resolution_witness :
    get_final_abi c2Env "0x1111111111111111111111111111111111111111" "ethereum" =
      (some upgradedAbi,
       [NetCall.storage "ethereum" "0x1111111111111111111111111111111111111111",
        NetCall.fetch "ethereum" (implHexOf 0xabc)]) :=
  c2_proxy_resolution c2Env "0x1111111111111111111111111111111111111111" "ethereum"
    0xabc upgradedAbi (by decide) rfl (by decide) (by simp [c2Env]) (by decide)

/-- C10: with no manual override, if the storage read raises, or if the
implementation slot is non-zero but the explorer fetch for the
implementation yields no usable ABI, `get_final_abi` does not stop there:
it performs exactly one fallback explorer fetch for the original address
and returns that fetch's result. -/
theorem c10_resolver_fallback (env : Env) (address chain : String)
    (hmap : ABI_MAPPING (asciiLower address) = none) :
    (env.storageAt chain address = none →
      get_final_abi env address chain =
        (env.fetchAbi chain address,
         [NetCall.storage chain address, NetCall.fetch chain address])) ∧
    (∀ w, env.storageAt chain address = some w → w % 2 ^ 160 ≠ 0 →
      truthyAbi (env.fetchAbi chain (implHexOf w)) = none →
      get_final_abi env address chain =
        (env.fetchAbi chain address,
         [NetCall.storage chain address, NetCall.fetch chain (implHexOf w),
          NetCall.fetch chain address])) := by
  constructor
  · intro hst
    unfold get_final_abi
    simp only [hmap, hst]
  · intro w hst hw htr
    unfold get_final_abi
    simp only [hmap, hst, if_pos hw]
    cases hf : env.fetchAbi chain (implHexOf w) with
    | none => simp [hf]
    | some l =>
      rw [hf] at htr
      have htr' : (if l.isEmpty then (none : Option (List AbiEntry)) else some l) = none :=
        htr
      have hnil : l = [] := by
        by_cases h : l = []
        · exact h
        · rw [if_neg (by simpa [List.isEmpty_iff] using h)] at htr'
          exact Option.noConfusion htr'
      subst hnil
      simp

/-- Witness for C10 at a concrete environment. -/
theorem c10_resolver_fallback_witness :
    get_final_abi c10Env "0x2222222222222222222222222222222222222222" "ethereum" =
      (c10Env.fetchAbi "ethereum" "0x2222222222222222222222222222222222222222",
       [NetCall.storage "ethereum" "0x2222222222222222222222222222222222222222",
        NetCall.fetch "ethereum" "0x2222222222222222222222222222222222222222"]) :=
  (c10_resolver_fallback c10Env "0x2222222222222222222222222222222222222222"
    "ethereum" (by decide)).1 rfl

/-- C8: a raw log with an empty topics list is dropped before signature
matching: `decode_log` yields no record, and the per-log loop merely
increments the failure counter and moves on. -/
theorem c8_zero_topics_dropped (gev : EventDataOracle) (abi : List AbiEntry)
    (log : RawLog) (h : log.topics = []) :
    decode_log gev log abi = none ∧
      ∀ c acc, logStep gev abi c acc log = (acc.1, acc.2.1, acc.2.2 + 1) := by
  have hd : decode_log gev log abi = none := by
    unfold decode_log
    rw [h]
  refine ⟨hd, fun c acc => ?_⟩
  unfold logStep
  rw [hd]

/-- Witness for C8 at a concrete log. -/
theorem c8_zero_topics_dropped_witness :
    decode_log (fun _ _ => none) c8Log [] = none ∧
      ∀ c acc, logStep (fun _ _ => none) [] c acc c8Log = (acc.1, acc.2.1, acc.2.2 + 1) :=
  c8_zero_topics_dropped (fun _ _ => none) [] c8Log rfl

/-- C9 (implicit): for every successfully decoded log, the record's
`block_number`, `transaction_hash`, `log_index` and `contract_address`
equal the raw log's own values — they are assigned after the decoded
arguments and therefore override any colliding argument key. -/
theorem c9_identity_fields (gev : EventDataOracle) (log : RawLog)
    (abi : List AbiEntry) (r : Record) (h : decode_log gev log abi = some r) :
    r.lookup "block_number" = some (RVal.int log.block_number) ∧
    r.lookup "transaction_hash" = some (RVal.str log.transaction_hash) ∧
    r.lookup "log_index" = some (RVal.int log.log_index) ∧
    r.lookup "contract_address" = some (RVal.str (asciiLower log.address)) := by
  obtain ⟨topic0, rest, e, args, ht, he, hg, hr⟩ :=
    decode_log_some_shape gev log abi r h
  rw [hr]
  exact record_identity_lookups ([("event_name", RVal.str e.name)]
    ++ args.map (fun kv => (kv.1, RVal.str (vstr kv.2)))) log

/-- Witness for C9 at a concrete decoded log (an argument is even named
`transaction_hash` and is overridden by the log's own value). -/
theorem c9_identity_fields_witness :
    List.lookup "transaction_hash"
      ([("event_name", RVal.str "Transfer"), ("transaction_hash", RVal.str "t"),
        ("block_number", RVal.int 7), ("log_index", RVal.int 3),
        ("contract_address", RVal.str "0xa")] : Record) = some (RVal.str "t") :=
  (c9_identity_fields (fun _ _ => some [("transaction_hash", DecVal.s "boom")])
    c9Log [transferEntry]
    [("event_name", RVal.str "Transfer"), ("transaction_hash", RVal.str "t"),
     ("block_number", RVal.int 7), ("log_index", RVal.int 3),
     ("contract_address", RVal.str "0xa")] (by decide)).2.1

/-- C5 counterexample: a successfully decoded log whose matched event (named
`Transfer`) declares an argument named `event_name`; the produced record's
`event_name` column holds the stringified argument value, not the matched
entry's name. -/
theorem c5_counterexample :
    (decode_log c5Gev c5Log [transferEntry]).bind (fun r => r.lookup "event_name")
        = some (RVal.str "boom") ∧
      (get_event_abi [transferEntry] transferTopic).map AbiEntry.name = some "Transfer" ∧
      RVal.str "boom" ≠ RVal.str "Transfer" := by
  decide

/-- C5 (amended): for every log that decodes successfully, the record holds
the log's `block_number`, `transaction_hash`, `log_index` and lower-cased
`contract_address`; it holds `event_name` from the matched ABI entry
provided no decoded argument is named `event_name`; and (argument names
being distinct) every argument key not colliding with one of the four
log-identity fields maps to the string representation of its decoded
value. -/
theorem c5_decode_record_amended (gev : EventDataOracle) (log : RawLog)
    (abi : List AbiEntry) (topic0 : String) (rest : List String) (e : AbiEntry)
    (args : List (String × DecVal)) (r : Record)
    (ht : log.topics = topic0 :: rest)
    (he : get_event_abi abi topic0 = some e)
    (hg : gev e log = some args)
    (h : decode_log gev log abi = some r) :
    (r.lookup "block_number" = some (RVal.int log.block_number) ∧
     r.lookup "transaction_hash" = some (RVal.str log.transaction_hash) ∧
     r.lookup "log_index" = some (RVal.int log.log_index) ∧
     r.lookup "contract_address" = some (RVal.str (asciiLower log.address))) ∧
    ((∀ p ∈ args, p.1 ≠ "event_name") →
      r.lookup "event_name" = some (RVal.str e.name)) ∧
    ((args.map Prod.fst).Nodup →
      ∀ p ∈ args, p.1 ∉ (["block_number", "transaction_hash", "log_index",
        "contract_address"] : List String) →
        r.lookup p.1 = some (RVal.str (vstr p.2))) := by
  have hrec := decode_log_eq_record gev log abi topic0 rest e args ht he hg
  rw [h] at hrec
  injection hrec with hr
  subst hr
  refine ⟨record_identity_lookups _ log, ?_, ?_⟩
  · intro hev
    have hkeys : (args.map (fun kv => (kv.1, RVal.str (vstr kv.2)))).map Prod.fst
        = args.map Prod.fst := by
      simp [List.map_map]
    have hmem : "event_name" ∉
        (args.map (fun kv => (kv.1, RVal.str (vstr kv.2)))).map Prod.fst := by
      rw [hkeys]
      simp only [List.mem_map]
      rintro ⟨p, hp, hpe⟩
      exact hev p hp hpe
    have h1 : lastVal [("block_number", RVal.int log.block_number),
        ("transaction_hash", RVal.str log.transaction_hash),
        ("log_index", RVal.int log.log_index),
        ("contract_address", RVal.str (asciiLower log.address))] "event_name" = none := rfl
    rw [lookup_pyDict, lastVal_append_left _ _ _ h1,
      lastVal_append_left _ _ _ (lastVal_none_of_not_mem_keys _ _ hmem)]
    rfl
  · intro hnd p hp hni
    have h1 : lastVal [("block_number", RVal.int log.block_number),
        ("transaction_hash", RVal.str log.transaction_hash),
        ("log_index", RVal.int log.log_index),
        ("contract_address", RVal.str (asciiLower log.address))] p.1 = none := by
      apply lastVal_none_of_not_mem_keys
      simpa using hni
    rw [lookup_pyDict, lastVal_append_left _ _ _ h1]
    exact lastVal_append_right _ _ _ _ (lastVal_map_nodup args hnd p hp)

/-- Witness for the amended C5 at a concrete decoded Transfer log. -/
theorem c5_decode_record_amended_witness :
    List.lookup "block_number"
      ([("event_name", RVal.str "Transfer"), ("value", RVal.str "5"),
        ("block_number", RVal.int 7), ("transaction_hash", RVal.str "t"),
        ("log_index", RVal.int 3), ("contract_address", RVal.str "0xa")] : Record)
      = some (RVal.int 7) :=
  (c5_decode_record_amended c5wGev c9Log [transferEntry] transferTopic []
    transferEntry [("value", DecVal.n 5)]
    [("event_name", RVal.str "Transfer"), ("value", RVal.str "5"),
     ("block_number", RVal.int 7), ("transaction_hash", RVal.str "t"),
     ("log_index", RVal.int 3), ("contract_address", RVal.str "0xa")]
    rfl (by decide) rfl (by decide)).1.1

/-! ## Orchestrator lemmas -/

theorem decodePhase_cache_calls (env : Env) (sink : List Record)
    (cache : List (String × List AbiEntry)) (c : Contract) (address : String)
    (abi : List AbiEntry) (calls : List NetCall) :
    (decodePhase env sink cache c address abi calls).abi_cache = cache ∧
      (decodePhase env sink cache c address abi calls).new_calls = calls := by
  unfold decodePhase
  cases h : env.queryLogsErr address with
  | none => exact ⟨rfl, rfl⟩
  | some e => cases e <;> exact ⟨rfl, rfl⟩

theorem decodePhase_abort (env : Env) (sink : List Record)
    (cache : List (String × List AbiEntry)) (c : Contract) (address : String)
    (abi : List AbiEntry) (calls : List NetCall)
    (hq : env.queryLogsErr address ≠ some QueryErr.missingSourceTable) :
    (decodePhase env sink cache c address abi calls).abort = false := by
  unfold decodePhase
  cases h : env.queryLogsErr address with
  | none => rfl
  | some e =>
    cases e with
    | missingSourceTable => exact absurd h hq
    | transient => rfl

theorem processContract_abort (env : Env) (sink : List Record)
    (cache : List (String × List AbiEntry)) (c : Contract)
    (hq : ∀ a, env.queryLogsErr a ≠ some QueryErr.missingSourceTable) :
    (processContract env sink cache c).abort = false := by
  unfold processContract
  cases hx : (NODE_RPCS_chains.contains c.chaine_contrat && env.provider c.chaine_contrat) with
  | false =>
    have hx' : c.chaine_contrat ∉ NODE_RPCS_chains ∨ env.provider c.chaine_contrat = false := by
      rcases Bool.and_eq_false_iff.mp hx with h | h
      · left
        simpa using h
      · right
        exact h
    simp [hx']
  | true =>
    simp only [hx, Bool.not_true, Bool.false_eq_true, if_false]
    cases hc : truthyAbi (cache.lookup (asciiLower c.adresse_contrat)) with
    | some abi =>
      simpa using decodePhase_abort env sink cache c (asciiLower c.adresse_contrat)
        abi [] (hq _)
    | none =>
      simp only [hc]
      cases ht : truthyAbi (get_final_abi env (asciiLower c.adresse_contrat)
          c.chaine_contrat).1 with
      | none => simp [ht]
      | some abi =>
        simpa [ht] using decodePhase_abort env sink
          (dictSet cache (asciiLower c.adresse_contrat) abi) c
          (asciiLower c.adresse_contrat) abi
          (get_final_abi env (asciiLower c.adresse_contrat) c.chaine_contrat).2 (hq _)

theorem runContracts_no_abort (env : Env) (sink : List Record)
    (hq : ∀ a, env.queryLogsErr a ≠ some QueryErr.missingSourceTable) :
    ∀ (cs : List Contract) (st : RunState), (runContracts env sink cs st).2 = false := by
  intro cs
  induction cs with
  | nil => intro st; rfl
  | cons c cs ih =>
    intro st
    unfold runContracts
    simp only [processContract_abort env sink st.abi_cache c hq, Bool.false_eq_true,
      if_false]
    exact ih _

/-! ## C6 and C7 -/

/-- C6 counterexample: a failed resolution (NotFound) is not cached, so the
same `(chain, address)` appearing twice in one run's registry triggers two
explorer call sequences — the claim's "at most one call sequence per key,
with NotFound cached" is false on the code. -/
theorem c6_counterexample :
    (run_label_events_worker c6Env []).calls.count (NetCall.fetch "ethereum" "0xb")
      = 2 := by
  decide

/-- C6 (amended): successful non-empty ABI resolutions are cached by
address: a contract whose address already has a cached (truthy) ABI makes
no explorer/RPC call and leaves the cache unchanged, and a cache miss that
resolves to a truthy ABI stores it under the address. Failed resolutions
are not cached. -/
theorem c6_cache_amended (env : Env) (sink : List Record)
    (cache : List (String × List AbiEntry)) (c : Contract) :
    (∀ abi, truthyAbi (cache.lookup (asciiLower c.adresse_contrat)) = some abi →
      (processContract env sink cache c).new_calls = [] ∧
      (processContract env sink cache c).abi_cache = cache) ∧
    ((NODE_RPCS_chains.contains c.chaine_contrat && env.provider c.chaine_contrat) = true →
      truthyAbi (cache.lookup (asciiLower c.adresse_contrat)) = none →
      ∀ abi,
        truthyAbi (get_final_abi env (asciiLower c.adresse_contrat) c.chaine_contrat).1
          = some abi →
        (processContract env sink cache c).abi_cache
          = dictSet cache (asciiLower c.adresse_contrat) abi ∧
        (processContract env sink cache c).new_calls
          = (get_final_abi env (asciiLower c.adresse_contrat) c.chaine_contrat).2) := by
  constructor
  · intro abi habi
    unfold processContract
    cases hx : (NODE_RPCS_chains.contains c.chaine_contrat && env.provider c.chaine_contrat) with
    | false =>
      have hx' : c.chaine_contrat ∉ NODE_RPCS_chains ∨ env.provider c.chaine_contrat = false := by
        rcases Bool.and_eq_false_iff.mp hx with h | h
        · left
          simpa using h
        · right
          exact h
      simp [hx']
    | true =>
      simp only [hx, Bool.not_true, Bool.false_eq_true, if_false, habi]
      have h := decodePhase_cache_calls env sink cache c (asciiLower c.adresse_contrat) abi []
      exact ⟨h.2, h.1⟩
  · intro hprov hmiss abi habi
    unfold processContract
    simp only [hprov, Bool.not_true, Bool.false_eq_true, if_false, hmiss, habi]
    have h := decodePhase_cache_calls env sink
      (dictSet cache (asciiLower c.adresse_contrat) abi) c
      (asciiLower c.adresse_contrat) abi
      (get_final_abi env (asciiLower c.adresse_contrat) c.chaine_contrat).2
    exact ⟨h.1, h.2⟩

/-- Witness for the amended C6: a cache hit short-circuits the resolver. -/
theorem c6_cache_amended_witness :
    (processContract c6Env [] [("0xb", upgradedAbi)] c6Contract1).new_calls = [] ∧
      (processContract c6Env [] [("0xb", upgradedAbi)] c6Contract1).abi_cache
        = [("0xb", upgradedAbi)] :=
  (c6_cache_amended c6Env [] [("0xb", upgradedAbi)] c6Contract1).1 upgradedAbi (by decide)

/-- C7 counterexample: two runs whose returned value is the same boolean but
whose (decoded, failed) counters differ — the return value of
`run_label_events_worker` is a success flag, not the aggregate counters. -/
theorem c7_counterexample :
    (run_label_events_worker c7EnvA []).ok = (run_label_events_worker c7EnvB []).ok ∧
      (run_label_events_worker c7EnvA []).failure_count ≠
        (run_label_events_worker c7EnvB []).failure_count := by
  decide

/-- C7 (amended): the orchestrator returns a boolean completion flag (the
counters are kept and reported, not returned), and every failure below it —
ABI-resolution, match or decode failure under any oracle — is recovered
locally: whenever the registry loads, the raw-log source table exists and
the flush succeeds, the run returns `True`. -/
theorem c7_run_returns_amended (env : Env) (sink : List Record)
    (hconf : env.configOk = true)
    (hprov : NODE_RPCS_chains.any env.provider = true)
    (hreg : env.registryFails = false)
    (hq : ∀ a, env.queryLogsErr a ≠ some QueryErr.missingSourceTable)
    (hup : env.uploadFails = false) :
    (run_label_events_worker env sink).ok = true := by
  unfold run_label_events_worker
  rw [hconf, hprov, hreg]
  simp only [Bool.not_true, Bool.false_eq_true, if_false]
  by_cases hempty : (env.contracts.take env.batch_size).isEmpty
  · rw [if_pos hempty]
  · rw [if_neg hempty]
    rw [runContracts_no_abort env sink hq (env.contracts.take env.batch_size)
      ⟨[], [], 0, 0, []⟩]
    simp only [Bool.false_eq_true, if_false]
    by_cases hrec : (runContracts env sink (env.contracts.take env.batch_size)
        ⟨[], [], 0, 0, []⟩).1.all_decoded_records.isEmpty
    · rw [if_pos hrec]
    · rw [if_neg hrec, hup]
      simp

/-- Witness for the amended C7 at a concrete environment. -/
theorem c7_run_returns_amended_witness :
    (run_label_events_worker c7EnvA []).ok = true :=
  c7_run_returns_amended c7EnvA [] rfl (by decide) rfl
    (fun a h => Option.noConfusion h) rfl

/-! ## Idempotence machinery -/

theorem filterMap_all_some {α β : Type} (h : α → Option β) (g : α → β) :
    ∀ l : List α, (∀ a ∈ l, h a = some (g a)) → l.filterMap h = l.map g := by
  intro l
  induction l with
  | nil => intro _; rfl
  | cons a as ih =>
    intro hall
    rw [List.filterMap_cons, hall a (List.mem_cons_self a as), List.map_cons,
      ih (fun b hb => hall b (List.mem_cons_of_mem a hb))]

theorem foldl_logStep (gev : EventDataOracle) (abi : List AbiEntry) (c : Contract) :
    ∀ (logs : List RawLog) (recs : List Record) (s f : Nat),
      logs.foldl (logStep gev abi c) (recs, s, f) =
        (recs ++ logs.filterMap
            (fun log => (decode_log gev log abi).map (fun r => withTokens r c)),
         s + logs.countP (fun log => (decode_log gev log abi).isSome),
         f + logs.countP (fun log => (decode_log gev log abi).isNone)) := by
  intro logs
  induction logs with
  | nil => intro recs s f; simp
  | cons l ls ih =>
    intro recs s f
    rw [List.foldl_cons]
    cases hd : decode_log gev l abi with
    | some r =>
      rw [show logStep gev abi c (recs, s, f) l = (recs ++ [withTokens r c], s + 1, f)
        from by unfold logStep; rw [hd]]
      rw [ih]
      refine congrArg₂ Prod.mk ?_ (congrArg₂ Prod.mk ?_ ?_)
      · rw [List.filterMap_cons, hd, List.append_assoc]
        rfl
      · rw [List.countP_cons_of_pos _ _ (by rw [hd]; rfl), Nat.add_assoc,
          Nat.add_comm 1]
      · rw [List.countP_cons_of_neg _ _ (by rw [hd]; exact fun hk => Bool.noConfusion hk)]
    | none =>
      rw [show logStep gev abi c (recs, s, f) l = (recs, s, f + 1)
        from by unfold logStep; rw [hd]]
      rw [ih]
      refine congrArg₂ Prod.mk ?_ (congrArg₂ Prod.mk ?_ ?_)
      · rw [List.filterMap_cons, hd]
        rfl
      · rw [List.countP_cons_of_neg _ _ (by rw [hd]; exact fun hk => Bool.noConfusion hk)]
      · rw [List.countP_cons_of_pos _ _ (by rw [hd]; rfl), Nat.add_assoc,
          Nat.add_comm 1]

theorem mem_insertByBlock (x a : RawLog) :
    ∀ l : List RawLog, a ∈ insertByBlock x l ↔ a = x ∨ a ∈ l := by
  intro l
  induction l with
  | nil => simp [insertByBlock]
  | cons y ys ih =>
    unfold insertByBlock
    by_cases hle : x.block_number ≤ y.block_number
    · rw [if_pos hle]
      simp [List.mem_cons]
    · rw [if_neg hle]
      simp only [List.mem_cons, ih]
      tauto

theorem mem_orderByBlock (a : RawLog) :
    ∀ l : List RawLog, a ∈ orderByBlock l ↔ a ∈ l := by
  intro l
  induction l with
  | nil => simp [orderByBlock]
  | cons x xs ih =>
    unfold orderByBlock
    rw [mem_insertByBlock, List.mem_cons, ih]

theorem length_insertByBlock (x : RawLog) :
    ∀ l : List RawLog, (insertByBlock x l).length = l.length + 1 := by
  intro l
  induction l with
  | nil => rfl
  | cons y ys ih =>
    unfold insertByBlock
    by_cases hle : x.block_number ≤ y.block_number
    · rw [if_pos hle]
      rfl
    · rw [if_neg hle, List.length_cons, ih, List.length_cons]

theorem length_orderByBlock :
    ∀ l : List RawLog, (orderByBlock l).length = l.length := by
  intro l
  induction l with
  | nil => rfl
  | cons x xs ih =>
    unfold orderByBlock
    rw [length_insertByBlock, ih, List.length_cons]

theorem orderByBlock_of_sorted :
    ∀ l : List RawLog,
      l.Pairwise (fun a b => a.block_number ≤ b.block_number) →
      orderByBlock l = l := by
  intro l
  induction l with
  | nil => intro _; rfl
  | cons x xs ih =>
    intro hp
    rw [List.pairwise_cons] at hp
    unfold orderByBlock
    rw [ih hp.2]
    cases xs with
    | nil => rfl
    | cons y ys =>
      unfold insertByBlock
      rw [if_pos (hp.1 y (List.mem_cons_self y ys))]

theorem decodePhase_abort_eq (env : Env) (sink sink' : List Record)
    (cache cache' : List (String × List AbiEntry)) (c c' : Contract)
    (address : String) (abi abi' : List AbiEntry) (calls calls' : List NetCall) :
    (decodePhase env sink cache c address abi calls).abort
      = (decodePhase env sink' cache' c' address abi' calls').abort := by
  unfold decodePhase
  cases h : env.queryLogsErr address with
  | none => rfl
  | some e => cases e <;> rfl

theorem processContract_cache_abort_eq (env : Env) (sink sink' : List Record)
    (cache : List (String × List AbiEntry)) (c : Contract) :
    (processContract env sink cache c).abi_cache
        = (processContract env sink' cache c).abi_cache ∧
      (processContract env sink cache c).abort
        = (processContract env sink' cache c).abort := by
  unfold processContract
  cases hx : (NODE_RPCS_chains.contains c.chaine_contrat
      && env.provider c.chaine_contrat) with
  | false =>
    have hx' : c.chaine_contrat ∉ NODE_RPCS_chains
        ∨ env.provider c.chaine_contrat = false := by
      rcases Bool.and_eq_false_iff.mp hx with h | h
      · left
        simpa using h
      · right
        exact h
    simp [hx']
  | true =>
    simp only [hx, Bool.not_true, Bool.false_eq_true, if_false]
    cases hc : truthyAbi (cache.lookup (asciiLower c.adresse_contrat)) with
    | some abi =>
      exact ⟨(decodePhase_cache_calls env sink cache c _ abi []).1.trans
          (decodePhase_cache_calls env sink' cache c _ abi []).1.symm,
        decodePhase_abort_eq env sink sink' cache cache c c _ abi abi [] []⟩
    | none =>
      simp only [hc]
      cases ht : truthyAbi (get_final_abi env (asciiLower c.adresse_contrat)
          c.chaine_contrat).1 with
      | none => simp [ht]
      | some abi =>
        simp only [ht]
        exact ⟨(decodePhase_cache_calls env sink _ c _ abi _).1.trans
            (decodePhase_cache_calls env sink' _ c _ abi _).1.symm,
          decodePhase_abort_eq env sink sink' _ _ c c _ abi abi _ _⟩

theorem runContracts_records (env : Env) (sink : List Record) :
    ∀ (cs : List Contract) (st : RunState),
      (runContracts env sink cs st).1.all_decoded_records
        = st.all_decoded_records ++ runContractsDelta env sink cs st.abi_cache := by
  intro cs
  induction cs with
  | nil => intro st; simp [runContracts, runContractsDelta]
  | cons c cs ih =>
    intro st
    unfold runContracts runContractsDelta
    cases hab : (processContract env sink st.abi_cache c).abort with
    | true => simp [hab]
    | false =>
      simp only [hab, Bool.false_eq_true, if_false]
      rw [ih]
      simp [List.append_assoc]

theorem runContracts_cons (env : Env) (sink : List Record) (c : Contract)
    (cs : List Contract) (st : RunState) :
    runContracts env sink (c :: cs) st =
      if (processContract env sink st.abi_cache c).abort then
        (⟨(processContract env sink st.abi_cache c).abi_cache,
          st.all_decoded_records ++ (processContract env sink st.abi_cache c).new_records,
          st.success_count + (processContract env sink st.abi_cache c).succ,
          st.failure_count + (processContract env sink st.abi_cache c).fail,
          st.calls ++ (processContract env sink st.abi_cache c).new_calls⟩, true)
      else
        runContracts env sink cs
          ⟨(processContract env sink st.abi_cache c).abi_cache,
           st.all_decoded_records ++ (processContract env sink st.abi_cache c).new_records,
           st.success_count + (processContract env sink st.abi_cache c).succ,
           st.failure_count + (processContract env sink st.abi_cache c).fail,
           st.calls ++ (processContract env sink st.abi_cache c).new_calls⟩ := rfl

theorem runContracts_abort_eq (env : Env) (sink sink' : List Record) :
    ∀ (cs : List Contract) (st st' : RunState), st.abi_cache = st'.abi_cache →
      (runContracts env sink cs st).2 = (runContracts env sink' cs st').2 := by
  intro cs
  induction cs with
  | nil => intro st st' _; rfl
  | cons c cs ih =>
    intro st st' hcc
    rw [runContracts_cons, runContracts_cons]
    have h := processContract_cache_abort_eq env sink sink' st.abi_cache c
    rw [hcc] at h
    cases hab : (processContract env sink st.abi_cache c).abort with
    | true =>
      rw [hcc] at hab
      have hab' : (processContract env sink' st'.abi_cache c).abort = true :=
        h.2.symm.trans hab
      rw [hcc, hab']
      rfl
    | false =>
      rw [hcc] at hab
      have hab' : (processContract env sink' st'.abi_cache c).abort = false :=
        h.2.symm.trans hab
      rw [hcc, hab']
      simp only [Bool.false_eq_true, if_false]
      exact ih _ _ h.1

theorem rowKeyMatches_of_decode (gev : EventDataOracle) (log : RawLog)
    (abi : List AbiEntry) (r : Record) (c : Contract)
    (h : decode_log gev log abi = some r) :
    rowKeyMatches log (withTokens r c) = true := by
  obtain ⟨topic0, rest, e, args, ht, he, hg, hr⟩ := decode_log_some_shape gev log abi r h
  have hids := record_identity_lookups
    ([("event_name", RVal.str e.name)]
      ++ args.map (fun kv => (kv.1, RVal.str (vstr kv.2)))) log
  rw [← hr] at hids
  unfold rowKeyMatches withTokens
  rw [lookup_dictSet_ne _ _ _ (by decide), lookup_dictSet_ne _ _ _ (by decide),
    lookup_dictSet_ne _ _ _ (by decide), lookup_dictSet_ne _ _ _ (by decide),
    hids.2.1, hids.2.2.1]
  simp

theorem mem_pendingLogs_append (table : List RawLog) (sink X : List Record)
    (address : String) (log : RawLog) :
    log ∈ pendingLogs table (sink ++ X) address ↔
      log ∈ pendingLogs table sink address ∧ X.any (rowKeyMatches log) = false := by
  simp only [pendingLogs, List.mem_filter, List.any_append, Bool.and_eq_true,
    Bool.not_eq_true', Bool.or_eq_false_iff]
  tauto

theorem decodePhase_records_eq (env : Env) (sink : List Record)
    (cache : List (String × List AbiEntry)) (c : Contract) (address : String)
    (abi : List AbiEntry) (calls : List NetCall)
    (hq : env.queryLogsErr address = none) :
    (decodePhase env sink cache c address abi calls).new_records =
      (fetchPendingLogs env.rawLogsTable sink address).filterMap
        (fun log => (decode_log env.get_event_data log abi).map
          (fun r => withTokens r c)) := by
  unfold decodePhase
  simp only [hq]
  rw [foldl_logStep]
  simp

theorem decodePhase_second_nil (env : Env) (sink₀ X : List Record)
    (cache cache₂ : List (String × List AbiEntry)) (c : Contract) (address : String)
    (abi : List AbiEntry) (calls calls₂ : List NetCall)
    (Hmem : ∀ r ∈ (decodePhase env sink₀ cache c address abi calls).new_records, r ∈ X)
    (Hlen : (pendingLogs env.rawLogsTable sink₀ address).length ≤ 2000) :
    (decodePhase env (sink₀ ++ X) cache₂ c address abi calls₂).new_records = [] := by
  cases hq : env.queryLogsErr address with
  | some e =>
    unfold decodePhase
    rw [hq]
    cases e <;> rfl
  | none =>
    rw [decodePhase_records_eq env (sink₀ ++ X) cache₂ c address abi calls₂ hq]
    rw [decodePhase_records_eq env sink₀ cache c address abi calls hq] at Hmem
    apply List.filterMap_eq_nil_iff.mpr
    intro log hlog
    cases hd : decode_log env.get_event_data log abi with
    | none => rfl
    | some r =>
      exfalso
      have hpend2 : log ∈ pendingLogs env.rawLogsTable (sink₀ ++ X) address :=
        (mem_orderByBlock log _).mp (List.mem_of_mem_take hlog)
      obtain ⟨hpend1, hnoX⟩ := (mem_pendingLogs_append env.rawLogsTable sink₀ X
        address log).mp hpend2
      have hfetch1 : fetchPendingLogs env.rawLogsTable sink₀ address
          = orderByBlock (pendingLogs env.rawLogsTable sink₀ address) := by
        unfold fetchPendingLogs
        exact List.take_of_length_le (by rw [length_orderByBlock]; exact Hlen)
      have hmem1 : withTokens r c ∈
          (fetchPendingLogs env.rawLogsTable sink₀ address).filterMap
            (fun log => (decode_log env.get_event_data log abi).map
              (fun r => withTokens r c)) := by
        rw [hfetch1]
        exact List.mem_filterMap.mpr ⟨log, (mem_orderByBlock log _).mpr hpend1,
          by rw [hd]; rfl⟩
      have hX : withTokens r c ∈ X := Hmem _ hmem1
      have : X.any (rowKeyMatches log) = true :=
        List.any_eq_true.mpr ⟨withTokens r c, hX,
          rowKeyMatches_of_decode env.get_event_data log abi r c hd⟩
      rw [this] at hnoX
      exact Bool.noConfusion hnoX

theorem processContract_second_nil (env : Env) (sink₀ X : List Record)
    (cache : List (String × List AbiEntry)) (c : Contract)
    (Hmem : ∀ r ∈ (processContract env sink₀ cache c).new_records, r ∈ X)
    (Hlen : (pendingLogs env.rawLogsTable sink₀
      (asciiLower c.adresse_contrat)).length ≤ 2000) :
    (processContract env (sink₀ ++ X) cache c).new_records = [] := by
  unfold processContract at Hmem ⊢
  cases hx : (NODE_RPCS_chains.contains c.chaine_contrat
      && env.provider c.chaine_contrat) with
  | false =>
    have hx' : c.chaine_contrat ∉ NODE_RPCS_chains
        ∨ env.provider c.chaine_contrat = false := by
      rcases Bool.and_eq_false_iff.mp hx with h | h
      · left
        simpa using h
      · right
        exact h
    simp [hx']
  | true =>
    simp only [hx, Bool.not_true, Bool.false_eq_true, if_false] at Hmem ⊢
    cases hc : truthyAbi (cache.lookup (asciiLower c.adresse_contrat)) with
    | some abi =>
      rw [hc] at Hmem
      exact decodePhase_second_nil env sink₀ X cache cache c _ abi [] [] Hmem Hlen
    | none =>
      rw [hc] at Hmem
      simp only at Hmem ⊢
      cases ht : truthyAbi (get_final_abi env (asciiLower c.adresse_contrat)
          c.chaine_contrat).1 with
      | none => simp [ht]
      | some abi =>
        rw [ht] at Hmem
        simp only [ht]
        exact decodePhase_second_nil env sink₀ X _ _ c _ abi _ _ Hmem Hlen

theorem second_run_delta_nil (env : Env) (sink₀ X : List Record) :
    ∀ (cs : List Contract) (cache : List (String × List AbiEntry)),
      (∀ r ∈ runContractsDelta env sink₀ cs cache, r ∈ X) →
      (∀ c ∈ cs, (pendingLogs env.rawLogsTable sink₀
        (asciiLower c.adresse_contrat)).length ≤ 2000) →
      runContractsDelta env (sink₀ ++ X) cs cache = [] := by
  intro cs
  induction cs with
  | nil => intro cache _ _; rfl
  | cons c cs ih =>
    intro cache HX Hlen
    have hpair := processContract_cache_abort_eq env sink₀ (sink₀ ++ X) cache c
    have hrec1 : ∀ r ∈ (processContract env sink₀ cache c).new_records, r ∈ X := by
      intro r hr
      apply HX
      unfold runContractsDelta
      cases hab : (processContract env sink₀ cache c).abort with
      | true => simpa [hab] using hr
      | false =>
        simp only [hab, Bool.false_eq_true, if_false]
        exact List.mem_append.mpr (Or.inl hr)
    have hnil : (processContract env (sink₀ ++ X) cache c).new_records = [] :=
      processContract_second_nil env sink₀ X cache c hrec1
        (Hlen c (List.mem_cons_self c cs))
    unfold runContractsDelta
    cases hab2 : (processContract env (sink₀ ++ X) cache c).abort with
    | true => simpa [hab2] using hnil
    | false =>
      simp only [hab2, Bool.false_eq_true, if_false, hnil, List.nil_append]
      have hab1 : (processContract env sink₀ cache c).abort = false :=
        hpair.2.trans hab2
      apply ih
      · intro r hr
        apply HX
        unfold runContractsDelta
        simp only [hab1, Bool.false_eq_true, if_false]
        apply List.mem_append.mpr
        right
        rw [hpair.1]
        exact hr
      · intro c' hc'
        exact Hlen c' (List.mem_cons_of_mem c hc')

/-- C1 (amended): provided no processed contract has more than 2000 pending
logs at the start of the first run (so the query's `LIMIT 2000` does not
truncate), running the orchestrator a second time against an unchanged Raw
Log Source and the sink left by the first run appends zero additional rows:
the anti-join selects only logs whose `(transaction_hash, log_index)` is
absent from the sink, every such log either failed to decode (and
deterministically fails again) or was flushed by the first run. -/
theorem c1_idempotence_amended (env : Env) (sink₀ : List Record)
    (Hlen : ∀ c ∈ env.contracts.take env.batch_size,
      (pendingLogs env.rawLogsTable sink₀
        (asciiLower c.adresse_contrat)).length ≤ 2000) :
    (run_label_events_worker env (run_label_events_worker env sink₀).sink).sink
      = (run_label_events_worker env sink₀).sink := by
  cases hconf : env.configOk with
  | false =>
    have hs : (run_label_events_worker env sink₀).sink = sink₀ := by
      simp [run_label_events_worker, hconf]
    rw [hs]
    exact hs
  | true =>
    cases hprov : NODE_RPCS_chains.any env.provider with
    | false =>
      have hs : (run_label_events_worker env sink₀).sink = sink₀ := by
        simp [run_label_events_worker, hconf, hprov]
      rw [hs]
      exact hs
    | true =>
      cases hreg : env.registryFails with
      | true =>
        have hs : (run_label_events_worker env sink₀).sink = sink₀ := by
          simp [run_label_events_worker, hconf, hprov, hreg]
        rw [hs]
        exact hs
      | false =>
        cases hempty : (env.contracts.take env.batch_size).isEmpty with
        | true =>
          have hs : (run_label_events_worker env sink₀).sink = sink₀ := by
            simp [run_label_events_worker, hconf, hprov, hreg, hempty]
          rw [hs]
          exact hs
        | false =>
          have hrecs1 : (runContracts env sink₀ (env.contracts.take env.batch_size)
              ⟨[], [], 0, 0, []⟩).1.all_decoded_records
              = runContractsDelta env sink₀ (env.contracts.take env.batch_size) [] := by
            rw [runContracts_records]
            exact List.nil_append _
          cases habort : (runContracts env sink₀ (env.contracts.take env.batch_size)
              ⟨[], [], 0, 0, []⟩).2 with
          | true =>
            have hs : (run_label_events_worker env sink₀).sink = sink₀ := by
              simp [run_label_events_worker, hconf, hprov, hreg, hempty, habort]
            rw [hs]
            exact hs
          | false =>
            cases hΔe : (runContractsDelta env sink₀
                (env.contracts.take env.batch_size) []).isEmpty with
            | true =>
              have hs : (run_label_events_worker env sink₀).sink = sink₀ := by
                simp [run_label_events_worker, hconf, hprov, hreg, hempty, habort,
                  hrecs1, hΔe]
              rw [hs]
              exact hs
            | false =>
              cases hup : env.uploadFails with
              | true =>
                have hs : (run_label_events_worker env sink₀).sink = sink₀ := by
                  simp [run_label_events_worker, hconf, hprov, hreg, hempty, habort,
                    hrecs1, hΔe, hup]
                rw [hs]
                exact hs
              | false =>
                have hs1 : (run_label_events_worker env sink₀).sink
                    = sink₀ ++ runContractsDelta env sink₀
                        (env.contracts.take env.batch_size) [] := by
                  simp [run_label_events_worker, hconf, hprov, hreg, hempty, habort,
                    hrecs1, hΔe, hup]
                have habort2 : (runContracts env
                    (sink₀ ++ runContractsDelta env sink₀
                      (env.contracts.take env.batch_size) [])
                    (env.contracts.take env.batch_size) ⟨[], [], 0, 0, []⟩).2 = false :=
                  (runContracts_abort_eq env _ sink₀
                    (env.contracts.take env.batch_size) _ _ rfl).trans habort
                have hrecs2 : (runContracts env
                    (sink₀ ++ runContractsDelta env sink₀
                      (env.contracts.take env.batch_size) [])
                    (env.contracts.take env.batch_size)
                    ⟨[], [], 0, 0, []⟩).1.all_decoded_records = [] := by
                  rw [runContracts_records, List.nil_append]
                  exact second_run_delta_nil env sink₀ _
                    (env.contracts.take env.batch_size) [] (fun r hr => hr) Hlen
                have hs2 : (run_label_events_worker env
                    (sink₀ ++ runContractsDelta env sink₀
                      (env.contracts.take env.batch_size) [])).sink
                    = sink₀ ++ runContractsDelta env sink₀
                        (env.contracts.take env.batch_size) [] := by
                  simp [run_label_events_worker, hconf, hprov, hreg, hempty, habort2,
                    hrecs2]
                rw [hs1]
                exact hs2

/-- Witness for the amended C1 at a concrete environment with one contract
and one (failing) pending log. -/
theorem c1_idempotence_amended_witness :
    (run_label_events_worker c7EnvB
        (run_label_events_worker c7EnvB []).sink).sink
      = (run_label_events_worker c7EnvB []).sink :=
  c1_idempotence_amended c7EnvB [] (by decide)

/-! ## The idempotence counterexample: 2001 pending logs -/

theorem c1_matcher : get_event_abi [transferEntry] transferTopic = some transferEntry := by
  decide

theorem c1_f (i : Nat) :
    (decode_log c1Gev (c1Log i) [transferEntry]).map (fun r => withTokens r c1Contract)
      = some (c1Rec i) := by
  rw [decode_log_eq_record c1Gev (c1Log i) [transferEntry] transferTopic [] transferEntry
    [] rfl c1_matcher rfl]
  rfl

theorem c1_pc (sink : List Record) :
    processContract c1Env sink [] c1Contract =
      decodePhase c1Env sink [("0xa", [transferEntry])] c1Contract "0xa" [transferEntry]
        [NetCall.storage "ethereum" "0xa", NetCall.fetch "ethereum" "0xa"] := rfl

theorem c1_sorted : c1Logs.Pairwise (fun a b => a.block_number ≤ b.block_number) := by
  apply List.pairwise_map.mpr
  exact (List.pairwise_lt_range 2001).imp (fun _ => Nat.le_refl 0)

theorem c1_pend1 : pendingLogs c1Env.rawLogsTable [] "0xa" = c1Logs := by
  apply List.filter_eq_self.mpr
  intro log hlog
  obtain ⟨i, _, rfl⟩ := List.mem_map.mp hlog
  rfl

theorem c1_fetch1 : fetchPendingLogs c1Env.rawLogsTable [] "0xa"
    = (List.range 2000).map c1Log := by
  unfold fetchPendingLogs
  rw [c1_pend1, orderByBlock_of_sorted _ c1_sorted]
  show ((List.range 2001).map c1Log).take 2000 = _
  rw [← List.map_take, List.take_range]
  rfl

theorem c1_records1 : (processContract c1Env [] [] c1Contract).new_records
    = (List.range 2000).map c1Rec := by
  rw [c1_pc, decodePhase_records_eq c1Env [] _ c1Contract "0xa" [transferEntry] _ rfl,
    c1_fetch1, List.filterMap_map]
  exact filterMap_all_some _ c1Rec _ (fun i _ => c1_f i)

theorem c1_rowKey (i j : Nat) :
    rowKeyMatches (c1Log i) (c1Rec j) = decide (j = i) := by
  show (decide (List.lookup "transaction_hash" (c1Rec j) = some (RVal.str "t")) &&
    decide (List.lookup "log_index" (c1Rec j) = some (RVal.int i))) = decide (j = i)
  rw [show List.lookup "transaction_hash" (c1Rec j) = some (RVal.str "t") from rfl,
    show List.lookup "log_index" (c1Rec j) = some (RVal.int j) from rfl]
  simp

theorem c1_any (i : Nat) :
    ((List.range 2000).map c1Rec).any (rowKeyMatches (c1Log i)) = decide (i < 2000) := by
  by_cases h : i < 2000
  · rw [show (decide (i < 2000)) = true from by simp [h]]
    apply List.any_eq_true.mpr
    refine ⟨c1Rec i, List.mem_map.mpr ⟨i, List.mem_range.mpr h, rfl⟩, ?_⟩
    rw [c1_rowKey]
    simp
  · rw [show (decide (i < 2000)) = false from by simp [h]]
    apply List.any_eq_false.mpr
    intro x hx
    obtain ⟨j, hj, rfl⟩ := List.mem_map.mp hx
    rw [c1_rowKey]
    simp only [decide_eq_true_eq]
    intro hji
    exact h (hji ▸ List.mem_range.mp hj)

theorem c1_pend2 :
    pendingLogs c1Env.rawLogsTable ((List.range 2000).map c1Rec) "0xa"
      = [c1Log 2000] := by
  show c1Logs.filter _ = _
  unfold c1Logs
  rw [List.filter_map]
  rw [List.filter_congr (q := fun i => !decide (i < 2000))
    (fun i _ => by
      show (decide (asciiLower (c1Log i).address = "0xa") &&
        !(((List.range 2000).map c1Rec).any (rowKeyMatches (c1Log i)))) = _
      rw [c1_any i]
      rfl)]
  rw [show (List.range 2001).filter (fun i => !decide (i < 2000)) = [2000] from by decide]
  rfl

theorem c1_records2 :
    (processContract c1Env ((List.range 2000).map c1Rec) [] c1Contract).new_records
      = [c1Rec 2000] := by
  rw [c1_pc, decodePhase_records_eq c1Env _ _ c1Contract "0xa" [transferEntry] _ rfl]
  unfold fetchPendingLogs
  rw [c1_pend2]
  rw [show orderByBlock [c1Log 2000] = [c1Log 2000] from rfl]
  rw [show ([c1Log 2000].take 2000) = [c1Log 2000] from rfl]
  rw [List.filterMap_cons]
  rw [show (decode_log c1Env.get_event_data (c1Log 2000) [transferEntry]).map
      (fun r => withTokens r c1Contract) = some (c1Rec 2000) from c1_f 2000]
  rfl

theorem c1_delta (sink : List Record)
    (h : (processContract c1Env sink [] c1Contract).abort = false) :
    runContractsDelta c1Env sink [c1Contract] []
      = (processContract c1Env sink [] c1Contract).new_records := by
  unfold runContractsDelta
  simp [h, runContractsDelta]

theorem c1_pc_abort (sink : List Record) :
    (processContract c1Env sink [] c1Contract).abort = false := by
  rw [c1_pc]
  rfl

theorem c1_abort (sink : List Record) :
    (runContracts c1Env sink [c1Contract] ⟨[], [], 0, 0, []⟩).2 = false := by
  rw [runContracts_cons]
  rw [show (⟨[], [], 0, 0, []⟩ : RunState).abi_cache = [] from rfl, c1_pc_abort]
  rfl

theorem c1_run_sink (sink : List Record)
    (hne : (processContract c1Env sink [] c1Contract).new_records ≠ []) :
    (run_label_events_worker c1Env sink).sink
      = sink ++ (processContract c1Env sink [] c1Contract).new_records := by
  have hrecs : (runContracts c1Env sink [c1Contract]
      ⟨[], [], 0, 0, []⟩).1.all_decoded_records
      = (processContract c1Env sink [] c1Contract).new_records := by
    rw [runContracts_records]
    rw [show (⟨[], [], 0, 0, []⟩ : RunState).abi_cache = [] from rfl]
    rw [c1_delta sink (c1_pc_abort sink)]
    exact List.nil_append _
  have hemp : (runContracts c1Env sink [c1Contract]
      ⟨[], [], 0, 0, []⟩).1.all_decoded_records.isEmpty = false := by
    rw [hrecs]
    cases hh : (processContract c1Env sink [] c1Contract).new_records with
    | nil => exact absurd hh hne
    | cons a as => rfl
  simp [run_label_events_worker, c1_abort, hemp, hrecs, hne,
    show c1Env.contracts.take c1Env.batch_size = [c1Contract] from rfl,
    show c1Env.configOk = true from rfl,
    show NODE_RPCS_chains.any c1Env.provider = true from by decide,
    show c1Env.registryFails = false from rfl,
    show c1Env.uploadFails = false from rfl]

/-- C1 counterexample: with 2001 pending decodable logs for one contract,
the first run's query is truncated by `LIMIT 2000`; the second run selects
and decodes the remaining log and appends one more row, so the second run
against an unchanged Raw Log Source is not a no-op. -/
theorem c1_counterexample :
    (run_label_events_worker c1Env (run_label_events_worker c1Env []).sink).sink
      ≠ (run_label_events_worker c1Env []).sink := by
  have h1 : (run_label_events_worker c1Env []).sink = (List.range 2000).map c1Rec := by
    rw [c1_run_sink [] (by rw [c1_records1]; simp), c1_records1]
    exact List.nil_append _
  have h2 : (run_label_events_worker c1Env
      ((List.range 2000).map c1Rec)).sink
      = (List.range 2000).map c1Rec ++ [c1Rec 2000] := by
    rw [c1_run_sink _ (by rw [c1_records2]; simp), c1_records2]
  rw [h1, h2]
  intro h
  have hlen := congrArg List.length h
  simp at hlen

end AiScanner
